import Mathlib

/-!
Verification development for the blaze tree-storage engine
(src/blaze/node.ts, tree-storage.ts, tree-database.ts, tree-database-ref.ts,
tree-data-snapshot.ts, modification.ts).

The mutable TypeScript object graph is shallowly embedded as pure values:

* `Node` mirrors the Node class: a primitive value slot, an insertion-ordered
  children map, and an insertion-ordered change ledger (`changedNodes`).
  Parent back-references are not stored; the upward change propagation of
  `markChildAsChanged` is realised by the recursive descent combinators
  (`Node.atPath`, `Node.atExisting`) which thread a "mark me as Changed in
  your ledger" request flag back up the call path.  Within one API call all
  upward marks target the single key on the touched path, so performing the
  parent-side merge while unwinding produces the same ledgers as the eager
  propagation of the source.
* JavaScript `Map` semantics (insertion order preserved, `set` on an existing
  key keeps its position, iteration in insertion order) are modelled by
  insertion-ordered association lists (`NodeMap`, and plain lists for the
  ledger).
* Throwing code returns `Except String`; recursion through the children map
  (notification flush, ledger reset) uses explicit fuel, with `depth + 1`
  fuel in the public wrappers (sufficient for the finite trees of the source).
* rxjs publishers are modelled by collecting the emitted `Event`s in order;
  `Subject.complete` on disconnect has no bearing on any property below and
  is not modelled, nor is the pending-callback registry of `TreeStorage`
  (promise resolution for not-yet-existing paths).
-/

set_option maxRecDepth 8000

/-- PrimitiveValue = boolean | number | string.  Numbers are embedded as
integers (all values appearing in the properties are integral). -/
inductive Prim where
  | b : Bool → Prim
  | i : Int → Prim
  | s : String → Prim
deriving DecidableEq

/-- JavaScript truthiness of a `PrimitiveValue | null`:
`null`, `false`, `0` and the empty string are falsy. -/
def truthy : Option Prim → Bool
  | none => false
  | some (.b b) => b
  | some (.i n) => n != 0
  | some (.s str) => str != ""

/-- ChangeType from change-type.ts. -/
inductive ChangeType where
  | Added
  | Changed
  | Removed
deriving DecidableEq

/-- TreeDataEventType from tree-data-event.ts. -/
inductive TreeDataEventType where
  | ChildAdded
  | ChildRemoved
  | ChildChanged
  | ValueChanged
deriving DecidableEq

mutual
/-- The Node class: `_value`, `children` map, `changedNodes` ledger. -/
inductive Node where
  | mk : Option Prim → NodeMap → List (String × ChangeType) → Node

/-- Insertion-ordered children map (JS `Map<string, Node>`). -/
inductive NodeMap where
  | nil : NodeMap
  | cons : String → Node → NodeMap → NodeMap
end

def Node.value : Node → Option Prim
  | .mk v _ _ => v

def Node.children : Node → NodeMap
  | .mk _ ch _ => ch

def Node.ledger : Node → List (String × ChangeType)
  | .mk _ _ led => led

/-- `new Node(parent, key)`: fresh node, no value, no children, no pending
changes (parent/key live in the enclosing map in this embedding). -/
def Node.empty : Node := .mk none .nil []

def Node.setRawValue : Node → Option Prim → Node
  | .mk _ ch led, v => .mk v ch led

def Node.clearChildren : Node → Node
  | .mk v _ led => .mk v .nil led

/-- `Map.get`. -/
def NodeMap.get : NodeMap → String → Option Node
  | .nil, _ => none
  | .cons k n rest, key => if k == key then some n else rest.get key

/-- `Map.set`: updating an existing key keeps its insertion position,
a new key is appended. -/
def NodeMap.set : NodeMap → String → Node → NodeMap
  | .nil, key, v => .cons key v .nil
  | .cons k n rest, key, v =>
    if k == key then .cons k v rest else .cons k n (rest.set key v)

/-- `Map.delete`. -/
def NodeMap.del : NodeMap → String → NodeMap
  | .nil, _ => .nil
  | .cons k n rest, key => if k == key then rest else .cons k n (rest.del key)

/-- `Map.size`. -/
def NodeMap.size : NodeMap → Nat
  | .nil => 0
  | .cons _ _ rest => rest.size + 1

/-- The keys, in iteration (= insertion) order. -/
def NodeMap.keysList : NodeMap → List String
  | .nil => []
  | .cons k _ rest => k :: rest.keysList

def Node.setChild (n : Node) (key : String) (c : Node) : Node :=
  match n with
  | .mk v ch led => .mk v (ch.set key c) led

def Node.delChild (n : Node) (key : String) : Node :=
  match n with
  | .mk v ch led => .mk v (ch.del key) led

/-- `Map.get` on the `changedNodes` ledger. -/
def Ledger.get : List (String × ChangeType) → String → Option ChangeType
  | [], _ => none
  | (k, t) :: rest, key => if k == key then some t else Ledger.get rest key

/-- `Map.set` on the ledger. -/
def Ledger.set : List (String × ChangeType) → String → ChangeType → List (String × ChangeType)
  | [], key, t => [(key, t)]
  | (k, u) :: rest, key, t =>
    if k == key then (k, t) :: rest else (k, u) :: Ledger.set rest key t

/-- `Map.delete` on the ledger. -/
def Ledger.del : List (String × ChangeType) → String → List (String × ChangeType)
  | [], _ => []
  | (k, u) :: rest, key => if k == key then rest else (k, u) :: Ledger.del rest key

/-- Node.markChildAsChanged.  The returned Bool is the upward propagation
request: the source calls `this.parent.markChildAsChanged(this.key, Changed)`
exactly when the key had no ledger entry yet and the ledger size became 1;
here the caller (which holds the parent) performs that mark when the flag is
true, and the root's caller discards it (`if (this.parent && ...)`). -/
def Node.markChildAsChanged (n : Node) (key : String) (t : ChangeType) :
    Except String (Node × Bool) :=
  match n with
  | .mk v ch led =>
    if (ch.get key).isNone then .error "Child node does not exist"
    else
      match Ledger.get led key with
      | some currentType =>
        if currentType == .Changed && t == .Changed then
          .ok (.mk v ch led, false)
        else if currentType == .Removed && t == .Added then
          .ok (.mk v ch (Ledger.set led key .Changed), false)
        else if currentType == .Added && t == .Removed then
          .ok (.mk v ch (Ledger.del led key), false)
        else if currentType == .Added && t == .Changed then
          .ok (.mk v ch (Ledger.set led key .Added), false)
        else
          .ok (.mk v ch (Ledger.set led key t), false)
      | none =>
        let led2 := Ledger.set led key t
        .ok (.mk v ch led2, led2.length == 1)

/-- The marking loop of Node.removeAllChildren: one
`markChildAsChanged(key, Removed)` per child, in iteration order
(`disconnect` only completes publishers, which is not modelled). -/
def Node.markEachRemoved : Node → List String → Except String (Node × Bool)
  | n, [] => .ok (n, false)
  | n, k :: rest =>
    match n.markChildAsChanged k .Removed with
    | .error e => .error e
    | .ok (n1, p1) =>
      match n1.markEachRemoved rest with
      | .error e => .error e
      | .ok (n2, p2) => .ok (n2, p1 || p2)

/-- Node.removeAllChildren. -/
def Node.removeAllChildren (n : Node) : Except String (Node × Bool) :=
  match n.markEachRemoved n.children.keysList with
  | .error e => .error e
  | .ok (n1, p) => .ok (n1.clearChildren, p)

/-- Node.setValueInternal: `if (newValue) { this.removeAllChildren(); }`
— a truthiness test, so children are only removed when the incoming value
is truthy — then `this._value = newValue`. -/
def Node.setValueInternal (n : Node) (newValue : Option Prim) :
    Except String (Node × Bool) :=
  if truthy newValue then
    match n.removeAllChildren with
    | .error e => .error e
    | .ok (n1, p) => .ok (n1.setRawValue newValue, p)
  else .ok (n.setRawValue newValue, false)

/-- Node.setValue.  The returned Bool requests
`parent.markChildAsChanged(this.key, Changed)`; the source may issue that
mark twice (once propagated from `removeAllChildren`, once explicitly), but
the second call merges to a no-op, so a single request is equivalent. -/
def Node.setValue (n : Node) (v : Prim) : Except String (Node × Bool) :=
  if some v == n.value then .ok (n, false)
  else
    match n.setValueInternal (some v) with
    | .error e => .error e
    | .ok (n1, _) => .ok (n1, true)

/-- Node.setDirectChild: `if (this.value) { this.setValueInternal(null); }`
(a truthiness test; `setValueInternal(null)` does not touch the children),
then replace/create the child and record Changed/Added. -/
def Node.setDirectChild (n : Node) (key : String) : Except String (Node × Bool) :=
  let n0 := if truthy n.value then n.setRawValue none else n
  let changeType := if ((n0.children.get key).isSome : Bool) then ChangeType.Changed
                    else ChangeType.Added
  let n1 := n0.setChild key Node.empty
  n1.markChildAsChanged key changeType

/-- Node.resolveDirectChild. -/
def Node.resolveDirectChild (n : Node) (key : String) : Except String (Node × Bool) :=
  match n.children.get key with
  | some _ => .ok (n, false)
  | none =>
    let n1 := n.setChild key Node.empty
    n1.markChildAsChanged key .Added

/-- Node.removeDirectChild. -/
def Node.removeDirectChild (n : Node) (key : String) : Except String (Node × Bool) :=
  match n.children.get key with
  | none => .ok (n, false)
  | some _ =>
    match n.markChildAsChanged key .Removed with
    | .error e => .error e
    | .ok (n1, p) => .ok (n1.delChild key, p)

/-- Node.getChild: empty path or a leading empty segment returns the node
itself; a missing segment yields null. -/
def Node.getChild : Node → List String → Option Node
  | n, [] => some n
  | n, k :: rest =>
    if k == "" then some n
    else
      match n.children.get k with
      | none => none
      | some c => c.getChild rest

/-- Node.resolveChild combined with an action at the resolved node: descends
per resolveChild (clearing a truthy value before descending, creating missing
children via resolveDirectChild), applies `act` at the target, and performs
the deferred upward `markChildAsChanged(key, Changed)` requests while
unwinding. -/
def Node.atPath : Node → List String → (Node → Except String (Node × Bool)) →
    Except String (Node × Bool)
  | n, [], act => act n
  | n, k :: rest, act =>
    if k == "" then act n
    else
      let n0 := if truthy n.value then n.setRawValue none else n
      match n0.resolveDirectChild k with
      | .error e => .error e
      | .ok (n1, p1) =>
        match n1.children.get k with
        | none => .error "Child node does not exist"
        | some child =>
          match child.atPath rest act with
          | .error e => .error e
          | .ok (child2, p2) =>
            let n2 := n1.setChild k child2
            if p2 then
              match n2.markChildAsChanged k .Changed with
              | .error e => .error e
              | .ok (n3, p3) => .ok (n3, p1 || p3)
            else .ok (n2, p1)

/-- Node.getChild combined with an action at the found node (used by
TreeStorage.removeValue): if any path segment is missing the action is
skipped (`if (node ...)`). -/
def Node.atExisting : Node → List String → (Node → Except String (Node × Bool)) →
    Except String (Node × Bool)
  | n, [], act => act n
  | n, k :: rest, act =>
    if k == "" then act n
    else
      match n.children.get k with
      | none => .ok (n, false)
      | some child =>
        match child.atExisting rest act with
        | .error e => .error e
        | .ok (child2, p2) =>
          let n2 := n.setChild k child2
          if p2 then
            match n2.markChildAsChanged k .Changed with
            | .error e => .error e
            | .ok (n3, p3) => .ok (n3, p3)
          else .ok (n2, false)

mutual
/-- Node.clone: a fresh node, `setValueInternal(this.value)` (on a fresh
childless node this copies the value verbatim — the truthiness guard only
protects the child-removal loop), children cloned recursively, `changedNodes`
and the publisher reset. -/
def Node.clone : Node → Node
  | .mk v ch _ => .mk v ch.cloneAll []

def NodeMap.cloneAll : NodeMap → NodeMap
  | .nil => .nil
  | .cons k c rest => .cons k c.clone rest.cloneAll
end

mutual
/-- Node.isEqual (the argument may be null): same value, same children
count, and every own child has a structurally equal counterpart. -/
def Node.isEqual : Node → Option Node → Bool
  | _, none => false
  | .mk v ch _, some other =>
    if v != other.value then false
    else if ch.size != other.children.size then false
    else ch.allEqualIn other

def NodeMap.allEqualIn : NodeMap → Node → Bool
  | .nil, _ => true
  | .cons k c rest, other =>
    (match other.children.get k with
     | none => false
     | some otherChild => c.isEqual (some otherChild)) && rest.allEqualIn other
end

/-- The JSON projection produced by Node.toJSON. -/
inductive JsonValue where
  | prim : Prim → JsonValue
  | obj : List (String × JsonValue) → JsonValue

mutual
/-- Node.toJSON: the primitive value if one is set (`!== null`), otherwise
an object keyed by child key. -/
def Node.toJSON : Node → JsonValue
  | .mk (some p) _ _ => .prim p
  | .mk none ch _ => .obj ch.toJSONList

def NodeMap.toJSONList : NodeMap → List (String × JsonValue)
  | .nil => []
  | .cons k c rest => (k, c.toJSON) :: rest.toJSONList
end

/-- The observable content of a node: value and children, recursively,
ignoring the change ledgers.  (Unlike `toJSON`, this does not collapse a
node that holds both a value and children.) -/
inductive ContentTree where
  | mk : Option Prim → List (String × ContentTree) → ContentTree

mutual
def Node.content : Node → ContentTree
  | .mk v ch _ => .mk v ch.contentList

def NodeMap.contentList : NodeMap → List (String × ContentTree)
  | .nil => []
  | .cons k c rest => (k, c.content) :: rest.contentList
end

mutual
/-- True when this node and all descendants have an empty change ledger. -/
def Node.ledgerFree : Node → Bool
  | .mk _ ch led => led.isEmpty && ch.allLedgerFree

def NodeMap.allLedgerFree : NodeMap → Bool
  | .nil => true
  | .cons _ c rest => c.ledgerFree && rest.allLedgerFree
end

mutual
def Node.depth : Node → Nat
  | .mk _ ch _ => 1 + ch.depthMax

def NodeMap.depthMax : NodeMap → Nat
  | .nil => 0
  | .cons _ c rest => max c.depth rest.depthMax
end

/-- A NodeEvent published on some node's `changes` stream.  `emitter` is the
path (from the root) of the node whose publisher fired, `key` and `snap` are
the key and content of the carried node at emission time. -/
structure Event where
  emitter : List String
  type : TreeDataEventType
  key : String
  snap : Node

def eventTypeFor : ChangeType → TreeDataEventType
  | .Added => .ChildAdded
  | .Changed => .ChildChanged
  | .Removed => .ChildRemoved

/-- The per-entry loop of Node.fireChildrenNotifications, iterating the
ledger in insertion order.  `rec` is the recursive flush (with its emission
path).  For a Removed entry the event carries a fresh parentless, valueless
placeholder node (`new Node(null, key)` = `Node.empty` here); otherwise the
live child is carried, the child's own ledger is flushed recursively, and
one ValueChanged is emitted on the child's publisher. -/
def Node.fireEntries
    (rec : List String → Node → Except String (List Event × Node))
    (path : List String) :
    List (String × ChangeType) → NodeMap → Except String (List Event × NodeMap)
  | [], ch => .ok ([], ch)
  | (k, t) :: rest, ch =>
    if t == .Removed then
      match Node.fireEntries rec path rest ch with
      | .error e => .error e
      | .ok (evs, ch2) =>
        .ok (⟨path, .ChildRemoved, k, Node.empty⟩ :: evs, ch2)
    else
      match ch.get k with
      | none => .error "Child node does not exist"
      | some child =>
        match rec (path ++ [k]) child with
        | .error e => .error e
        | .ok (childEvs, child2) =>
          match Node.fireEntries rec path rest (ch.set k child2) with
          | .error e => .error e
          | .ok (evs, ch2) =>
            .ok (⟨path, eventTypeFor t, k, child⟩ ::
                  (childEvs ++ ⟨path ++ [k], .ValueChanged, k, child2⟩ :: evs),
                 ch2)

/-- Node.fireChildrenNotifications with explicit fuel for the recursion
through the children (the source recursion is bounded by the tree depth).
After the entry loop the root (`!this.parent`, i.e. emission path `[]`)
emits its own ValueChanged when its ledger was non-empty, and the ledger is
cleared. -/
def Node.fireFuel : Nat → List String → Node → Except String (List Event × Node)
  | 0, _, _ => .error "fuel exhausted"
  | fuel+1, path, .mk v ch led =>
    match Node.fireEntries (fun p nd => Node.fireFuel fuel p nd) path led ch with
    | .error e => .error e
    | .ok (evs, ch2) =>
      let selfEvs :=
        if path.isEmpty && !led.isEmpty then
          [⟨path, .ValueChanged, "", .mk v ch2 led⟩]
        else []
      .ok (evs ++ selfEvs, .mk v ch2 [])

/-- Node.fireChildrenNotifications on the root node. -/
def Node.fireChildrenNotifications (n : Node) : Except String (List Event × Node) :=
  Node.fireFuel (n.depth + 1) [] n

/-- The per-entry loop of Node.resetChangedNodes: non-Removed entries must
have a live child, which is reset recursively. -/
def Node.resetEntries (rec : Node → Except String Node) :
    List (String × ChangeType) → NodeMap → Except String NodeMap
  | [], ch => .ok ch
  | (k, t) :: rest, ch =>
    if t == .Removed then Node.resetEntries rec rest ch
    else
      match ch.get k with
      | none => .error "Child node does not exist"
      | some c =>
        match rec c with
        | .error e => .error e
        | .ok c2 => Node.resetEntries rec rest (ch.set k c2)

/-- Node.resetChangedNodes with explicit fuel. -/
def Node.resetFuel : Nat → Node → Except String Node
  | 0, _ => .error "fuel exhausted"
  | fuel+1, .mk v ch led =>
    match Node.resetEntries (fun nd => Node.resetFuel fuel nd) led ch with
    | .error e => .error e
    | .ok ch2 => .ok (.mk v ch2 [])

/-- Node.resetChangedNodes. -/
def Node.resetChangedNodes (n : Node) : Except String Node :=
  Node.resetFuel (n.depth + 1) n

/-- Splitting on the separator character, structurally over the character
list (same semantics as the JavaScript `String.split("/")` used by the
source: an empty string yields [""], adjacent separators yield empty
segments). -/
def splitAux : List Char → List Char → List String
  | [], acc => [String.mk acc.reverse]
  | c :: rest, acc =>
    if c == '/' then String.mk acc.reverse :: splitAux rest []
    else splitAux rest (c :: acc)

/-- TreeStorage.split (PATH_SEPARATOR = "/"). -/
def TreeStorage.split (path : String) : List String :=
  splitAux path.data []

/-- TreeStorage.getNode; the storage state is its root node. -/
def TreeStorage.getNode (path : String) (root : Node) : Option Node :=
  if path.length == 0 then some root
  else root.getChild (TreeStorage.split path)

/-- TreeStorage.setValue: `resolveNode(path).setValue(value)`.
(`onNodeModified` only resolves pending subscription promises, which are
not modelled.) -/
def TreeStorage.setValue (path : String) (v : Prim) (root : Node) :
    Except String Node :=
  match root.atPath (TreeStorage.split path) (fun n => n.setValue v) with
  | .error e => .error e
  | .ok (r, _) => .ok r

/-- The per-key loop of TreeStorage.setValues / updateValues:
`node.resolveChild(TreeStorage.split(key)).setValue(values[key])` for each
entry, in insertion order (keys may be compound subpaths). -/
def Node.setEach : Node → List (String × Prim) → Except String (Node × Bool)
  | n, [] => .ok (n, false)
  | n, (key, v) :: rest =>
    match n.atPath (TreeStorage.split key) (fun m => m.setValue v) with
    | .error e => .error e
    | .ok (n1, p1) =>
      match n1.setEach rest with
      | .error e => .error e
      | .ok (n2, p2) => .ok (n2, p1 || p2)

/-- TreeStorage.setValues: resolve the target node, remove all of its
children, then set each entry. -/
def TreeStorage.setValues (path : String) (values : List (String × Prim))
    (root : Node) : Except String Node :=
  match root.atPath (TreeStorage.split path) (fun n =>
      match n.removeAllChildren with
      | .error e => .error e
      | .ok (n1, p0) =>
        match n1.setEach values with
        | .error e => .error e
        | .ok (n2, p) => .ok (n2, p0 || p)) with
  | .error e => .error e
  | .ok (r, _) => .ok r

/-- TreeStorage.updateValues: like setValues but without clearing the
existing children first. -/
def TreeStorage.updateValues (path : String) (values : List (String × Prim))
    (root : Node) : Except String Node :=
  match root.atPath (TreeStorage.split path) (fun n => n.setEach values) with
  | .error e => .error e
  | .ok (r, _) => .ok r

/-- TreeStorage.removeValue: pop the last segment, find the parent via
getChild, and remove the direct child; a missing parent or an empty-string
key (falsy in `if (node && key)`) makes it a no-op. -/
def TreeStorage.removeValue (path : String) (root : Node) : Except String Node :=
  let splitPath := TreeStorage.split path
  match splitPath.getLast? with
  | none => .ok root
  | some key =>
    if key == "" then .ok root
    else
      match root.atExisting splitPath.dropLast (fun n => n.removeDirectChild key) with
      | .error e => .error e
      | .ok (r, _) => .ok r

/-- TreeStorage.getStateObservable: one ChildAdded per existing child, in
iteration order, then one ValueChanged for the node itself. -/
def NodeMap.burstEvents (path : List String) : NodeMap → List Event
  | .nil => []
  | .cons k c rest => ⟨path, .ChildAdded, k, c⟩ :: rest.burstEvents path

def TreeStorage.getStateObservable (path : List String) (selfKey : String)
    (n : Node) : List Event :=
  n.children.burstEvents path ++ [⟨path, .ValueChanged, selfKey, n⟩]

/-- The events TreeStorage.observe(path) delivers immediately on
subscription: the state burst of the node when it already exists, nothing
when it does not (the promise for the node is still pending).  All later
events of the merged stream come from the node's own publisher, i.e. from
notification flushes after subsequent mutations. -/
def TreeStorage.observeNow (path : String) (root : Node) : List Event :=
  match TreeStorage.getNode path root with
  | none => []
  | some n =>
    let pathKeys := if path.length == 0 then [] else TreeStorage.split path
    TreeStorage.getStateObservable pathKeys ((pathKeys.getLast?).getD "") n

/-- TreeStorage.resetRecordedChanges. -/
def TreeStorage.resetRecordedChanges (root : Node) : Except String Node :=
  root.resetChangedNodes

/-- TreeStorage.triggerRecordChangeNotifications. -/
def TreeStorage.triggerRecordChangeNotifications (root : Node) :
    Except String (List Event × Node) :=
  root.fireChildrenNotifications

/-- Modification (modification.ts): a tagged variant with path and payload. -/
inductive Modification where
  | SetValue (path : String) (value : Prim)
  | SetValues (path : String) (values : List (String × Prim))
  | Update (path : String) (values : List (String × Prim))
  | Remove (path : String)

inductive ModificationSource where
  | Local
  | Remote
deriving DecidableEq

structure AttributedModification where
  modification : Modification
  source : ModificationSource

/-- The observable state of a TreeDatabase: the readonly flag, the storage
root, the emissions on `publisher` (the outgoing local-modification stream),
one entry per `triggerRecordChangeNotifications` call (carrying the events
that flush emitted), and the number of `resetRecordedChanges` calls. -/
structure TreeDatabase where
  readonly : Bool
  root : Node
  published : List Modification
  flushTrace : List (List Event)
  resets : Nat

/-- `storage.triggerRecordChangeNotifications()` at database level. -/
def TreeDatabase.trigger (db : TreeDatabase) : Except String TreeDatabase :=
  match TreeStorage.triggerRecordChangeNotifications db.root with
  | .error e => .error e
  | .ok (evs, r) => .ok { db with root := r, flushTrace := db.flushTrace ++ [evs] }

/-- `storage.resetRecordedChanges()` at database level. -/
def TreeDatabase.reset (db : TreeDatabase) : Except String TreeDatabase :=
  match TreeStorage.resetRecordedChanges db.root with
  | .error e => .error e
  | .ok r => .ok { db with root := r, resets := db.resets + 1 }

/-- The storage dispatch of TreeDatabase.applyModification, which is the
same for both sources: the `switch (m.type)` body without the
clone/compare bookkeeping. -/
def applyModStorage : Modification → Node → Except String Node
  | .SetValue p v, root => TreeStorage.setValue p v root
  | .SetValues p vals, root => TreeStorage.setValues p vals root
  | .Update p vals, root => TreeStorage.updateValues p vals root
  | .Remove p, root => TreeStorage.removeValue p root

/-- TreeDatabase.applyModification, translated case by case:
`suppressNotifications` starts false and is set only in the SetValues case,
to `isLocal && clone !== null && clone.isEqual(getNode(m.path))`; at the end
either `resetRecordedChanges` (suppressed) or
`triggerRecordChangeNotifications` runs. -/
def TreeDatabase.applyModification (db : TreeDatabase)
    (change : AttributedModification) : Except String TreeDatabase :=
  let isLocal := change.source == ModificationSource.Local
  match change.modification with
  | .SetValue p v =>
    match TreeStorage.setValue p v db.root with
    | .error e => .error e
    | .ok r => TreeDatabase.trigger { db with root := r }
  | .SetValues p vals =>
    let node := TreeStorage.getNode p db.root
    let clone := if isLocal then
        (match node with
         | some n => some n.clone
         | none => none)
      else none
    match TreeStorage.setValues p vals db.root with
    | .error e => .error e
    | .ok r =>
      let suppressNotifications := isLocal &&
        (match clone with
         | none => false
         | some c => c.isEqual (TreeStorage.getNode p r))
      if suppressNotifications then TreeDatabase.reset { db with root := r }
      else TreeDatabase.trigger { db with root := r }
  | .Update p vals =>
    match TreeStorage.updateValues p vals db.root with
    | .error e => .error e
    | .ok r => TreeDatabase.trigger { db with root := r }
  | .Remove p =>
    match TreeStorage.removeValue p db.root with
    | .error e => .error e
    | .ok r => TreeDatabase.trigger { db with root := r }

/-- The database's modificationSink: a Subscriber whose `next` handler is
`this.applyModification.bind(this)`; feeding it an AttributedModification
simply runs applyModification. -/
def TreeDatabase.modificationSinkNext (db : TreeDatabase)
    (change : AttributedModification) : Except String TreeDatabase :=
  TreeDatabase.applyModification db change

/-- A TreeDatabaseRef is a (database, path) handle with no state of its own;
the database is passed alongside. -/
structure TreeDatabaseRef where
  path : String

/-- TreeDatabaseRef.setValue.  Returns the new database state and the thrown
error, if any; the readonly check precedes every effect, so a readonly
failure returns the state untouched. -/
def TreeDatabaseRef.setValue (ref : TreeDatabaseRef) (v : Prim)
    (db : TreeDatabase) : TreeDatabase × Option String :=
  if db.readonly then (db, some "Cannot write to a readonly database")
  else
    match TreeStorage.setValue ref.path v db.root with
    | .error e => (db, some e)
    | .ok r =>
      let db1 := { db with
        root := r
        published := db.published ++ [Modification.SetValue ref.path v] }
      match TreeDatabase.trigger db1 with
      | .error e => (db1, some e)
      | .ok db2 => (db2, none)

/-- TreeDatabaseRef.setValues. -/
def TreeDatabaseRef.setValues (ref : TreeDatabaseRef)
    (values : List (String × Prim)) (db : TreeDatabase) :
    TreeDatabase × Option String :=
  if db.readonly then (db, some "Cannot write to a readonly database")
  else
    match TreeStorage.setValues ref.path values db.root with
    | .error e => (db, some e)
    | .ok r =>
      let db1 := { db with
        root := r
        published := db.published ++ [Modification.SetValues ref.path values] }
      match TreeDatabase.trigger db1 with
      | .error e => (db1, some e)
      | .ok db2 => (db2, none)

/-- TreeDatabaseRef.update. -/
def TreeDatabaseRef.update (ref : TreeDatabaseRef)
    (values : List (String × Prim)) (db : TreeDatabase) :
    TreeDatabase × Option String :=
  if db.readonly then (db, some "Cannot write to a readonly database")
  else
    match TreeStorage.updateValues ref.path values db.root with
    | .error e => (db, some e)
    | .ok r =>
      let db1 := { db with
        root := r
        published := db.published ++ [Modification.Update ref.path values] }
      match TreeDatabase.trigger db1 with
      | .error e => (db1, some e)
      | .ok db2 => (db2, none)

/-- TreeDatabaseRef.remove. -/
def TreeDatabaseRef.remove (ref : TreeDatabaseRef) (db : TreeDatabase) :
    TreeDatabase × Option String :=
  if db.readonly then (db, some "Cannot write to a readonly database")
  else
    match TreeStorage.removeValue ref.path db.root with
    | .error e => (db, some e)
    | .ok r =>
      let db1 := { db with
        root := r
        published := db.published ++ [Modification.Remove ref.path] }
      match TreeDatabase.trigger db1 with
      | .error e => (db1, some e)
      | .ok db2 => (db2, none)

/-- TreeDataSnapshot: the (cloned) node, its path and key.  The database
back-reference only mints further refs and is omitted. -/
structure TreeDataSnapshot where
  node : Node
  path : List String
  key : String

/-- TreeDataSnapshot.take: `new TreeDataSnapshot(db, node.clone(), path,
node.key)`.  `pathFromRoot` is reconstructed via parent links in the source
and passed explicitly here; the node's key is its last path segment ("" for
the root). -/
def TreeDataSnapshot.take (node : Node) (pathFromRoot : List String) :
    TreeDataSnapshot :=
  { node := node.clone
    path := pathFromRoot
    key := (pathFromRoot.getLast?).getD "" }

def TreeDataSnapshot.value (s : TreeDataSnapshot) : Option Prim :=
  s.node.value

/-- TreeDataSnapshot.hasChild: `getChild(split(path)) !== null`. -/
def TreeDataSnapshot.hasChild (s : TreeDataSnapshot) (path : String) : Bool :=
  (s.node.getChild (TreeStorage.split path)).isSome

/-- TreeDataSnapshot.child: the sub-snapshot at the relative path, if any. -/
def TreeDataSnapshot.child (s : TreeDataSnapshot) (path : String) :
    Option TreeDataSnapshot :=
  match s.node.getChild (TreeStorage.split path) with
  | none => none
  | some n =>
    some { node := n
           path := s.path ++ TreeStorage.split path
           key := ((TreeStorage.split path).getLast?).getD "" }

def TreeDataSnapshot.toJSON (s : TreeDataSnapshot) : JsonValue :=
  s.node.toJSON

/-- The state of the Promise returned by TreeDatabaseRef.getValue. -/
inductive PromiseState where
  | pending
  | resolved (v : JsonValue)
  | rejected

/-- A signal delivered by the underlying change stream (`first()` of the
ValueChanged-filtered changes). -/
inductive StreamSignal where
  | next (ev : Event)
  | error

/-- The observer getValue subscribes with:
`next: (event) => resolve(event.value.toJSON())` and `error: () => reject`.
The error handler's body is the bare expression `reject` — the function is
returned, not invoked — so an upstream error leaves the promise in its
current (pending) state instead of rejecting it. -/
def getValueObserver : StreamSignal → PromiseState → PromiseState
  | .next ev, .pending => .resolved ev.snap.toJSON
  | .next _, st => st
  | .error, st => st

/-- The ledger merge table realised by markChildAsChanged: rows are the
existing entry (none = no entry), columns the incoming mutation.  It agrees
with the table of spec section 4.1 except in two unreachable cells:
Changed+Added yields Added (not Changed) and Removed+Changed yields Changed
(not Removed) — both fall into the final catch-all branch of the source,
which stores the incoming type. -/
def mergeSpec : Option ChangeType → ChangeType → Option ChangeType
  | none, t => some t
  | some .Changed, .Changed => some .Changed
  | some .Removed, .Added => some .Changed
  | some .Added, .Removed => none
  | some .Added, .Changed => some .Added
  | some .Added, .Added => some .Added
  | some .Changed, .Added => some .Added
  | some .Changed, .Removed => some .Removed
  | some .Removed, .Removed => some .Removed
  | some .Removed, .Changed => some .Changed

/-- The single exception of applyModification, as specified: the flush is
replaced by a ledger reset exactly for a Local SetValues whose target node
existed before and whose pre-image clone structurally equals the node after
applying. -/
def echoSuppressed (change : AttributedModification) (rootBefore rootAfter : Node) :
    Bool :=
  match change.modification with
  | .SetValues p _ =>
    (match change.source with
     | .Local =>
       (match TreeStorage.getNode p rootBefore with
        | none => false
        | some n0 => n0.clone.isEqual (TreeStorage.getNode p rootAfter))
     | .Remote => false)
  | .SetValue _ _ => false
  | .Update _ _ => false
  | .Remove _ => false

theorem Ledger.get_set_self (led : List (String × ChangeType)) (key : String)
    (t : ChangeType) : Ledger.get (Ledger.set led key t) key = some t := by
  induction led with
  | nil => simp [Ledger.set, Ledger.get]
  | cons kv rest ih =>
    obtain ⟨k, u⟩ := kv
    by_cases h : k == key <;> simp [Ledger.set, Ledger.get, h, ih]

theorem Ledger.get_eq_none_of_not_mem (led : List (String × ChangeType))
    (key : String) (h : key ∉ led.map Prod.fst) : Ledger.get led key = none := by
  induction led with
  | nil => rfl
  | cons kv rest ih =>
    obtain ⟨k, u⟩ := kv
    rw [List.map_cons, List.mem_cons] at h
    push_neg at h
    have hk : (k == key) = false := by
      simp only [beq_eq_false_iff_ne]
      exact fun e => h.1 (e.symm)
    simp [Ledger.get, hk, ih h.2]

theorem Ledger.get_del_self (led : List (String × ChangeType)) (key : String)
    (h : (led.map Prod.fst).Nodup) : Ledger.get (Ledger.del led key) key = none := by
  induction led with
  | nil => rfl
  | cons kv rest ih =>
    obtain ⟨k, u⟩ := kv
    rw [List.map_cons, List.nodup_cons] at h
    by_cases hk : k == key
    · have e : k = key := by simpa using hk
      subst e
      simp [Ledger.del]
      exact Ledger.get_eq_none_of_not_mem rest k h.1
    · simp [Ledger.del, hk, Ledger.get, ih h.2]

/-- C2 counterexample: the merge table of the claim fails in two cells.
With an existing Changed entry, an incoming Added is stored as Added (the
claim says Changed stays); with an existing Removed entry, an incoming
Changed is stored as Changed (the claim says it is treated as Removed). -/
theorem spec2proof_c2_counterexample :
    (∃ n2, (Node.mk none (.cons "c" Node.empty .nil)
          [("c", ChangeType.Changed)]).markChildAsChanged "c" .Added = .ok (n2, false) ∧
        Ledger.get n2.ledger "c" = some .Added) ∧
    ChangeType.Added ≠ ChangeType.Changed ∧
    (∃ n2, (Node.mk none (.cons "c" Node.empty .nil)
          [("c", ChangeType.Removed)]).markChildAsChanged "c" .Changed = .ok (n2, false) ∧
        Ledger.get n2.ledger "c" = some .Changed) ∧
    ChangeType.Changed ≠ ChangeType.Removed := by
  refine ⟨⟨_, rfl, rfl⟩, by decide, ⟨_, rfl, rfl⟩, by decide⟩

/-- C2, amended: markChildAsChanged realises the merge table `mergeSpec`:
no existing entry stores the incoming type; Added then Removed deletes the
entry; Removed then Added yields Changed; Added then Changed/Added yields
Added; Changed then Changed yields Changed; Changed then Removed and
Removed then Removed yield Removed; and — differing from the claim —
Changed then Added yields Added and Removed then Changed yields Changed.
Values and children are untouched. -/
theorem spec2proof_c2 (n : Node) (key : String) (t : ChangeType)
    (hchild : (n.children.get key).isSome = true)
    (hnodup : (n.ledger.map Prod.fst).Nodup) :
    ∃ n2 p, n.markChildAsChanged key t = .ok (n2, p) ∧
      Ledger.get n2.ledger key = mergeSpec (Ledger.get n.ledger key) t ∧
      n2.value = n.value ∧ n2.children = n.children := by
  obtain ⟨v, ch, led⟩ := n
  simp only [Node.children, Node.ledger, Node.value] at hchild hnodup ⊢
  have hnone : (ch.get key).isNone = false := by
    cases h : ch.get key
    · rw [h] at hchild; simp at hchild
    · simp
  cases hL : Ledger.get led key with
  | none =>
    simp [Node.markChildAsChanged, hnone, hL, Node.ledger, Node.value, Node.children,
      mergeSpec, Ledger.get_set_self]
  | some cur =>
    cases cur <;> cases t <;>
      simp [Node.markChildAsChanged, hnone, hL, Node.ledger, Node.value, Node.children,
        mergeSpec, Ledger.get_set_self, Ledger.get_del_self led key hnodup]

/-- Witness for spec2proof_c2 at a concrete node: existing entry Added,
incoming Removed cancels the entry. -/
theorem spec2proof_c2_witness :
    ∃ n2 p,
      (Node.mk none (.cons "c" Node.empty .nil)
          [("c", ChangeType.Added)]).markChildAsChanged "c" .Removed = .ok (n2, p) ∧
      Ledger.get n2.ledger "c" =
        mergeSpec (Ledger.get (Node.mk none (.cons "c" Node.empty .nil)
          [("c", ChangeType.Added)]).ledger "c") .Removed ∧
      n2.value = (Node.mk none (.cons "c" Node.empty .nil)
          [("c", ChangeType.Added)]).value ∧
      n2.children = (Node.mk none (.cons "c" Node.empty .nil)
          [("c", ChangeType.Added)]).children :=
  spec2proof_c2 (Node.mk none (.cons "c" Node.empty .nil) [("c", ChangeType.Added)])
    "c" .Removed (by rfl) (by decide)

/-- C1 (code bug): the exactly-one-of-value-or-children invariant fails for
falsy primitive values.  `setValueInternal` guards the child-removal with a
truthiness test on the incoming value, so setting 0 on a node that has
children keeps the children; and `resolveChild` guards the value-clearing
with a truthiness test on the existing value, so creating a child under a
node holding `false` keeps the value.  Both runs end with a node holding a
primitive value and a child simultaneously. -/
theorem spec2proof_c1 :
    (∃ r1 r2 nd,
      TreeStorage.setValues "a" [("b", Prim.i 1)] Node.empty = .ok r1 ∧
      TreeStorage.setValue "a" (Prim.i 0) r1 = .ok r2 ∧
      TreeStorage.getNode "a" r2 = some nd ∧
      nd.value = some (Prim.i 0) ∧
      nd.children.get "b" = some (.mk (some (Prim.i 1)) .nil [])) ∧
    (∃ r1 r2 nd,
      TreeStorage.setValue "a" (Prim.b false) Node.empty = .ok r1 ∧
      TreeStorage.setValue "a/c" (Prim.i 1) r1 = .ok r2 ∧
      TreeStorage.getNode "a" r2 = some nd ∧
      nd.value = some (Prim.b false) ∧
      nd.children.get "c" = some (.mk (some (Prim.i 1)) .nil [])) :=
  ⟨⟨.mk none (.cons "a" (.mk none (.cons "b" (.mk (some (Prim.i 1)) .nil []) .nil)
        [("b", .Added)]) .nil) [("a", .Added)],
    .mk none (.cons "a" (.mk (some (Prim.i 0)) (.cons "b" (.mk (some (Prim.i 1)) .nil [])
        .nil) [("b", .Added)]) .nil) [("a", .Added)],
    .mk (some (Prim.i 0)) (.cons "b" (.mk (some (Prim.i 1)) .nil []) .nil) [("b", .Added)],
    rfl, rfl, rfl, rfl, rfl⟩,
   ⟨.mk none (.cons "a" (.mk (some (Prim.b false)) .nil []) .nil) [("a", .Added)],
    .mk none (.cons "a" (.mk (some (Prim.b false)) (.cons "c" (.mk (some (Prim.i 1)) .nil [])
        .nil) [("c", .Added)]) .nil) [("a", .Added)],
    .mk (some (Prim.b false)) (.cons "c" (.mk (some (Prim.i 1)) .nil []) .nil) [("c", .Added)],
    rfl, rfl, rfl, rfl, rfl⟩⟩

/-- C7: every TreeDatabaseRef write operation checks the readonly flag
before doing anything else; on a readonly database it returns the error and
the database state — storage, ledgers, published local-modification stream
and flush trace — completely unchanged. -/
theorem spec2proof_c7 (db : TreeDatabase) (path : String) (v : Prim)
    (vals : List (String × Prim)) (h : db.readonly = true) :
    TreeDatabaseRef.setValue ⟨path⟩ v db =
        (db, some "Cannot write to a readonly database") ∧
    TreeDatabaseRef.setValues ⟨path⟩ vals db =
        (db, some "Cannot write to a readonly database") ∧
    TreeDatabaseRef.update ⟨path⟩ vals db =
        (db, some "Cannot write to a readonly database") ∧
    TreeDatabaseRef.remove ⟨path⟩ db =
        (db, some "Cannot write to a readonly database") := by
  refine ⟨?_, ?_, ?_, ?_⟩ <;>
    simp [TreeDatabaseRef.setValue, TreeDatabaseRef.setValues,
      TreeDatabaseRef.update, TreeDatabaseRef.remove, h]

/-- Witness for spec2proof_c7 on a concrete readonly database. -/
theorem spec2proof_c7_witness :
    TreeDatabaseRef.setValue ⟨"w"⟩ (Prim.i 7) ⟨true, Node.empty, [], [], 0⟩ =
        (⟨true, Node.empty, [], [], 0⟩, some "Cannot write to a readonly database") ∧
    TreeDatabaseRef.setValues ⟨"w"⟩ [("k", Prim.i 7)] ⟨true, Node.empty, [], [], 0⟩ =
        (⟨true, Node.empty, [], [], 0⟩, some "Cannot write to a readonly database") ∧
    TreeDatabaseRef.update ⟨"w"⟩ [("k", Prim.i 7)] ⟨true, Node.empty, [], [], 0⟩ =
        (⟨true, Node.empty, [], [], 0⟩, some "Cannot write to a readonly database") ∧
    TreeDatabaseRef.remove ⟨"w"⟩ ⟨true, Node.empty, [], [], 0⟩ =
        (⟨true, Node.empty, [], [], 0⟩, some "Cannot write to a readonly database") :=
  spec2proof_c7 ⟨true, Node.empty, [], [], 0⟩ "w" (Prim.i 7) [("k", Prim.i 7)] rfl

/-- C9 (code bug): the observer that getValue subscribes with resolves the
promise on the first ValueChanged event, but its error handler is the bare
expression `reject` — it returns the reject function without invoking it —
so an upstream stream error leaves the promise pending forever instead of
rejecting it. -/
theorem spec2proof_c9 :
    getValueObserver .error .pending = .pending ∧
    PromiseState.pending ≠ PromiseState.rejected ∧
    (∀ st, getValueObserver .error st = st) ∧
    (∀ ev, getValueObserver (.next ev) .pending = .resolved ev.snap.toJSON) :=
  ⟨rfl, fun h => PromiseState.noConfusion h,
   fun st => by cases st <;> rfl, fun _ => rfl⟩

theorem fireFuel_emptyLedger (fuel : Nat) (path : List String) (v : Option Prim)
    (ch : NodeMap) :
    Node.fireFuel (fuel+1) path (.mk v ch []) = .ok ([], .mk v ch []) := by
  simp [Node.fireFuel, Node.fireEntries]

theorem fireFuel_ok_shape :
    ∀ (f : Nat) (path : List String) (n : Node) (evs : List Event) (n2 : Node),
      Node.fireFuel f path n = .ok (evs, n2) → ∃ v ch2, n2 = .mk v ch2 []
  | 0, _, _, _, _ => by
    intro h
    simp [Node.fireFuel] at h
  | f+1, path, .mk v ch led, evs, n2 => by
    intro h
    simp only [Node.fireFuel] at h
    split at h
    · exact absurd h (by simp)
    · simp only [Except.ok.injEq, Prod.mk.injEq] at h
      exact ⟨_, _, h.2.symm⟩

theorem fireFuel_root_events (v : Option Prim) (ch : NodeMap)
    (led : List (String × ChangeType)) (fuel : Nat) (evs0 : List Event) (ch2 : NodeMap)
    (h : Node.fireEntries (fun p nd => Node.fireFuel fuel p nd) [] led ch = .ok (evs0, ch2)) :
    Node.fireFuel (fuel+1) [] (.mk v ch led) =
      .ok (evs0 ++ (if led.isEmpty then []
          else [⟨[], .ValueChanged, "", .mk v ch2 led⟩]), .mk v ch2 []) := by
  cases led with
  | nil => simp only [Node.fireFuel, h]; simp
  | cons e rest => simp only [Node.fireFuel, h]; simp

/-- C6: fireChildrenNotifications processes the ledger entries in order —
Removed emits one ChildRemoved carrying a fresh valueless placeholder node
(parentless `new Node(null, key)`), otherwise ChildAdded/ChildChanged
carrying the live child followed by the child's recursive flush and exactly
one ValueChanged for the child — clears the ledger (so an immediate second
flush emits zero events), and the root emits its own ValueChanged exactly
when its ledger was non-empty.  Conjuncts: (1) flushing an empty ledger
emits nothing and leaves the node unchanged; (2) an immediate second flush
after any successful flush emits zero events; (3) the root's flush emits
the per-entry events followed by the root ValueChanged if and only if the
ledger was non-empty, and ends with an empty ledger; (4) a concrete mixed
trace exhibiting the per-entry order. -/
theorem spec2proof_c6 :
    (∀ (fuel : Nat) (path : List String) (v : Option Prim) (ch : NodeMap),
      Node.fireFuel (fuel+1) path (.mk v ch []) = .ok ([], .mk v ch [])) ∧
    (∀ (n : Node) (evs : List Event) (n2 : Node),
      n.fireChildrenNotifications = .ok (evs, n2) →
      n2.fireChildrenNotifications = .ok ([], n2)) ∧
    (∀ (v : Option Prim) (ch : NodeMap) (led : List (String × ChangeType))
        (fuel : Nat) (evs0 : List Event) (ch2 : NodeMap),
      Node.fireEntries (fun p nd => Node.fireFuel fuel p nd) [] led ch = .ok (evs0, ch2) →
      Node.fireFuel (fuel+1) [] (.mk v ch led) =
        .ok (evs0 ++ (if led.isEmpty then []
            else [⟨[], .ValueChanged, "", .mk v ch2 led⟩]), .mk v ch2 [])) ∧
    (Node.fireChildrenNotifications
        (.mk none
          (.cons "b" (.mk none (.cons "c" (.mk (some (Prim.i 5)) .nil []) .nil)
            [("c", .Added)]) .nil)
          [("r", .Removed), ("b", .Added)]) =
      .ok ([⟨[], .ChildRemoved, "r", .mk none .nil []⟩,
            ⟨[], .ChildAdded, "b",
              .mk none (.cons "c" (.mk (some (Prim.i 5)) .nil []) .nil) [("c", .Added)]⟩,
            ⟨["b"], .ChildAdded, "c", .mk (some (Prim.i 5)) .nil []⟩,
            ⟨["b", "c"], .ValueChanged, "c", .mk (some (Prim.i 5)) .nil []⟩,
            ⟨["b"], .ValueChanged, "b",
              .mk none (.cons "c" (.mk (some (Prim.i 5)) .nil []) .nil) []⟩,
            ⟨[], .ValueChanged, "",
              .mk none (.cons "b" (.mk none (.cons "c" (.mk (some (Prim.i 5)) .nil []) .nil)
                []) .nil) [("r", .Removed), ("b", .Added)]⟩],
           .mk none (.cons "b" (.mk none (.cons "c" (.mk (some (Prim.i 5)) .nil []) .nil)
             []) .nil) [])) := by
  refine ⟨fireFuel_emptyLedger, ?_, fireFuel_root_events, rfl⟩
  intro n evs n2 h
  obtain ⟨v, ch2, rfl⟩ := fireFuel_ok_shape _ _ _ _ _ h
  exact fireFuel_emptyLedger _ _ _ _

/-- Witness for spec2proof_c6: the second-flush clause applied to the
concrete mixed state of conjunct (4), and the root-events clause applied to
a one-entry root. -/
theorem spec2proof_c6_witness :
    Node.fireChildrenNotifications
        (.mk none (.cons "b" (.mk none (.cons "c" (.mk (some (Prim.i 5)) .nil []) .nil)
          []) .nil) []) =
      .ok ([], .mk none (.cons "b" (.mk none (.cons "c" (.mk (some (Prim.i 5)) .nil [])
        .nil) []) .nil) []) ∧
    Node.fireFuel 2 [] (.mk none (.cons "w" (.mk (some (Prim.i 3)) .nil []) .nil)
        [("w", .Added)]) =
      .ok ([⟨[], .ChildAdded, "w", .mk (some (Prim.i 3)) .nil []⟩,
            ⟨["w"], .ValueChanged, "w", .mk (some (Prim.i 3)) .nil []⟩] ++
           (if ([("w", ChangeType.Added)] : List (String × ChangeType)).isEmpty then []
            else [⟨[], .ValueChanged, "",
              .mk none (.cons "w" (.mk (some (Prim.i 3)) .nil []) .nil)
                [("w", .Added)]⟩]),
           .mk none (.cons "w" (.mk (some (Prim.i 3)) .nil []) .nil) []) :=
  ⟨spec2proof_c6.2.1
      (.mk none
        (.cons "b" (.mk none (.cons "c" (.mk (some (Prim.i 5)) .nil []) .nil)
          [("c", .Added)]) .nil)
        [("r", .Removed), ("b", .Added)])
      [⟨[], .ChildRemoved, "r", .mk none .nil []⟩,
       ⟨[], .ChildAdded, "b",
         .mk none (.cons "c" (.mk (some (Prim.i 5)) .nil []) .nil) [("c", .Added)]⟩,
       ⟨["b"], .ChildAdded, "c", .mk (some (Prim.i 5)) .nil []⟩,
       ⟨["b", "c"], .ValueChanged, "c", .mk (some (Prim.i 5)) .nil []⟩,
       ⟨["b"], .ValueChanged, "b",
         .mk none (.cons "c" (.mk (some (Prim.i 5)) .nil []) .nil) []⟩,
       ⟨[], .ValueChanged, "",
         .mk none (.cons "b" (.mk none (.cons "c" (.mk (some (Prim.i 5)) .nil []) .nil)
           []) .nil) [("r", .Removed), ("b", .Added)]⟩]
      (.mk none (.cons "b" (.mk none (.cons "c" (.mk (some (Prim.i 5)) .nil []) .nil)
        []) .nil) [])
      rfl,
   spec2proof_c6.2.2.1 none (.cons "w" (.mk (some (Prim.i 3)) .nil []) .nil)
      [("w", .Added)] 1
      [⟨[], .ChildAdded, "w", .mk (some (Prim.i 3)) .nil []⟩,
       ⟨["w"], .ValueChanged, "w", .mk (some (Prim.i 3)) .nil []⟩]
      (.cons "w" (.mk (some (Prim.i 3)) .nil []) .nil)
      rfl⟩

/-- C5: replay-on-subscribe.  After `setValues("a/b", {x:1, y:2})` has been
applied and flushed, subscribing via observe("a/b") immediately yields
ChildAdded(x), ChildAdded(y), then one ValueChanged for the node at "a/b",
in that order; the flushed state emits nothing further until a new mutation
(an immediate flush emits zero events); and observing a path whose node
does not exist yields no events (the subscription stays parked on the
pending node promise). -/
theorem spec2proof_c5 :
    ((TreeStorage.setValues "a/b" [("x", Prim.i 1), ("y", Prim.i 2)] Node.empty).bind
        (fun r1 => (r1.fireChildrenNotifications).map Prod.snd) =
      .ok (.mk none (.cons "a" (.mk none (.cons "b"
        (.mk none (.cons "x" (.mk (some (Prim.i 1)) .nil [])
          (.cons "y" (.mk (some (Prim.i 2)) .nil [] ) .nil)) [])
        .nil) []) .nil) [])) ∧
    (TreeStorage.observeNow "a/b"
        (.mk none (.cons "a" (.mk none (.cons "b"
          (.mk none (.cons "x" (.mk (some (Prim.i 1)) .nil [])
            (.cons "y" (.mk (some (Prim.i 2)) .nil []) .nil)) [])
          .nil) []) .nil) []) =
      [⟨["a", "b"], .ChildAdded, "x", .mk (some (Prim.i 1)) .nil []⟩,
       ⟨["a", "b"], .ChildAdded, "y", .mk (some (Prim.i 2)) .nil []⟩,
       ⟨["a", "b"], .ValueChanged, "b",
         .mk none (.cons "x" (.mk (some (Prim.i 1)) .nil [])
           (.cons "y" (.mk (some (Prim.i 2)) .nil []) .nil)) []⟩]) ∧
    (Node.fireChildrenNotifications
        (.mk none (.cons "a" (.mk none (.cons "b"
          (.mk none (.cons "x" (.mk (some (Prim.i 1)) .nil [])
            (.cons "y" (.mk (some (Prim.i 2)) .nil []) .nil)) [])
          .nil) []) .nil) []) =
      .ok ([], .mk none (.cons "a" (.mk none (.cons "b"
        (.mk none (.cons "x" (.mk (some (Prim.i 1)) .nil [])
          (.cons "y" (.mk (some (Prim.i 2)) .nil []) .nil)) [])
        .nil) []) .nil) [])) ∧
    (TreeStorage.observeNow "zz"
        (.mk none (.cons "a" (.mk none (.cons "b"
          (.mk none (.cons "x" (.mk (some (Prim.i 1)) .nil [])
            (.cons "y" (.mk (some (Prim.i 2)) .nil []) .nil)) [])
          .nil) []) .nil) []) = []) ∧
    (∀ (path : String) (root : Node),
      TreeStorage.getNode path root = none → TreeStorage.observeNow path root = []) := by
  refine ⟨rfl, rfl, rfl, rfl, ?_⟩
  intro path root h
  simp [TreeStorage.observeNow, h]

/-- Witness for spec2proof_c5: the empty-burst clause applied to a path that
does not exist in the empty storage. -/
theorem spec2proof_c5_witness :
    TreeStorage.getNode "zz" Node.empty = none ∧
    TreeStorage.observeNow "zz" Node.empty = [] :=
  ⟨rfl, spec2proof_c5.2.2.2.2 "zz" Node.empty rfl⟩

/-- C4 counterexample: applying a Local SetValues("a", {x:1}) to an empty
database via the modification sink and then a Remote SetValues("a", {x:1})
that leaves the node content at "a" unchanged produces TWO flushes in total
(the Local write flushes, and the Remote echo flushes again: suppression is
keyed on Source = Local, so a Remote-sourced echo is never suppressed),
contradicting the claimed single flush. -/
theorem spec2proof_c4_counterexample :
    ((TreeDatabase.modificationSinkNext ⟨false, Node.empty, [], [], 0⟩
        ⟨.SetValues "a" [("x", Prim.i 1)], .Local⟩).bind
      (fun db1 => (TreeDatabase.modificationSinkNext db1
          ⟨.SetValues "a" [("x", Prim.i 1)], .Remote⟩).map
        (fun db2 => (db1.flushTrace.length, db1.resets,
                     db2.flushTrace.length, db2.resets, db2.root))) =
      .ok (1, 0, 2, 0,
        .mk none (.cons "a" (.mk none (.cons "x" (.mk (some (Prim.i 1)) .nil []) .nil)
          []) .nil) [])) ∧
    (2 : Nat) ≠ 1 :=
  ⟨rfl, by decide⟩

/-- C4, amended: the echo suppression of applyModification is keyed on the
modification's Source being Local.  A Local SetValues("a", {x:1}) followed
by a Remote SetValues("a", {x:1}) with the same resulting content fires two
flushes (the Remote echo is not suppressed); the suppression occurs when the
identical echo arrives attributed Local: a Local SetValues("a", {x:1})
followed by the same Local-attributed SetValues yields exactly one flush in
total, the second write discarding its ledger via resetRecordedChanges. -/
theorem spec2proof_c4 :
    ((TreeDatabase.modificationSinkNext ⟨false, Node.empty, [], [], 0⟩
        ⟨.SetValues "a" [("x", Prim.i 1)], .Local⟩).bind
      (fun db1 => (TreeDatabase.modificationSinkNext db1
          ⟨.SetValues "a" [("x", Prim.i 1)], .Remote⟩).map
        (fun db2 => (db1.flushTrace.length, db1.resets,
                     db2.flushTrace.length, db2.resets, db2.root))) =
      .ok (1, 0, 2, 0,
        .mk none (.cons "a" (.mk none (.cons "x" (.mk (some (Prim.i 1)) .nil []) .nil)
          []) .nil) [])) ∧
    ((TreeDatabase.modificationSinkNext ⟨false, Node.empty, [], [], 0⟩
        ⟨.SetValues "a" [("x", Prim.i 1)], .Local⟩).bind
      (fun db1 => (TreeDatabase.modificationSinkNext db1
          ⟨.SetValues "a" [("x", Prim.i 1)], .Local⟩).map
        (fun db2 => (db1.flushTrace.length, db1.resets,
                     db2.flushTrace.length, db2.resets, db2.root))) =
      .ok (1, 0, 1, 1,
        .mk none (.cons "a" (.mk none (.cons "x" (.mk (some (Prim.i 1)) .nil []) .nil)
          []) .nil) [])) :=
  ⟨rfl, rfl⟩

theorem NodeMap.contentList_set :
    ∀ (m : NodeMap) (k : String) (c c2 : Node),
      m.get k = some c → c2.content = c.content →
      (m.set k c2).contentList = m.contentList
  | .nil, k, c, c2 => by
    intro hget _
    simp [NodeMap.get] at hget
  | .cons key n rest, k, c, c2 => by
    intro hget hc
    by_cases h : key == k
    · simp only [NodeMap.get, h, if_pos, Option.some.injEq] at hget
      simp [NodeMap.set, h, NodeMap.contentList, hc, hget]
    · simp only [NodeMap.get, h, Bool.false_eq_true, if_false] at hget
      simp [NodeMap.set, h, NodeMap.contentList,
        NodeMap.contentList_set rest k c c2 hget hc]

theorem fireEntries_content :
    ∀ (entries : List (String × ChangeType))
      (rec : List String → Node → Except String (List Event × Node))
      (path : List String) (ch : NodeMap) (evs : List Event) (ch2 : NodeMap),
      (∀ p nd evs2 nd2, rec p nd = .ok (evs2, nd2) → nd2.content = nd.content) →
      Node.fireEntries rec path entries ch = .ok (evs, ch2) →
      ch2.contentList = ch.contentList
  | [], rec, path, ch, evs, ch2 => by
    intro _ h
    simp only [Node.fireEntries, Except.ok.injEq, Prod.mk.injEq] at h
    rw [← h.2]
  | (k, t) :: rest, rec, path, ch, evs, ch2 => by
    intro hrec h
    simp only [Node.fireEntries] at h
    by_cases ht : t == ChangeType.Removed
    · rw [if_pos ht] at h
      cases hrest : Node.fireEntries rec path rest ch with
      | error e => simp [hrest] at h
      | ok pr =>
        obtain ⟨evs1, ch2x⟩ := pr
        simp only [hrest, Except.ok.injEq, Prod.mk.injEq] at h
        rw [← h.2]
        exact fireEntries_content rest rec path ch evs1 ch2x hrec hrest
    · rw [if_neg ht] at h
      cases hk : ch.get k with
      | none => simp [hk] at h
      | some child =>
        simp only [hk] at h
        cases hrec0 : rec (path ++ [k]) child with
        | error e => simp [hrec0] at h
        | ok pr0 =>
          obtain ⟨cevs, child2⟩ := pr0
          simp only [hrec0] at h
          cases hrest : Node.fireEntries rec path rest (ch.set k child2) with
          | error e => simp [hrest] at h
          | ok pr =>
            obtain ⟨evs1, ch2x⟩ := pr
            simp only [hrest, Except.ok.injEq, Prod.mk.injEq] at h
            rw [← h.2]
            calc ch2x.contentList
                = (ch.set k child2).contentList :=
                  fireEntries_content rest rec path (ch.set k child2) evs1 ch2x hrec hrest
              _ = ch.contentList :=
                  NodeMap.contentList_set ch k child child2 hk (hrec _ _ _ _ hrec0)

theorem fireFuel_content :
    ∀ (f : Nat) (path : List String) (n : Node) (evs : List Event) (n2 : Node),
      Node.fireFuel f path n = .ok (evs, n2) → n2.content = n.content
  | 0, _, _, _, _ => by
    intro h
    simp [Node.fireFuel] at h
  | f+1, path, .mk v ch led, evs, n2 => by
    intro h
    simp only [Node.fireFuel] at h
    cases hE : Node.fireEntries (fun p nd => Node.fireFuel f p nd) path led ch with
    | error e => simp [hE] at h
    | ok pr =>
      obtain ⟨evs0, ch2⟩ := pr
      simp only [hE, Except.ok.injEq, Prod.mk.injEq] at h
      have hc : ch2.contentList = ch.contentList :=
        fireEntries_content led _ path ch evs0 ch2
          (fun p nd evs2 nd2 hh => fireFuel_content f p nd evs2 nd2 hh) hE
      rw [← h.2]
      simp [Node.content, hc]

theorem resetEntries_content :
    ∀ (entries : List (String × ChangeType)) (rec : Node → Except String Node)
      (ch ch2 : NodeMap),
      (∀ nd nd2, rec nd = .ok nd2 → nd2.content = nd.content) →
      Node.resetEntries rec entries ch = .ok ch2 → ch2.contentList = ch.contentList
  | [], rec, ch, ch2 => by
    intro _ h
    simp only [Node.resetEntries, Except.ok.injEq] at h
    rw [← h]
  | (k, t) :: rest, rec, ch, ch2 => by
    intro hrec h
    simp only [Node.resetEntries] at h
    by_cases ht : t == ChangeType.Removed
    · rw [if_pos ht] at h
      exact resetEntries_content rest rec ch ch2 hrec h
    · rw [if_neg ht] at h
      cases hk : ch.get k with
      | none => simp [hk] at h
      | some c =>
        simp only [hk] at h
        cases hrec0 : rec c with
        | error e => simp [hrec0] at h
        | ok c2 =>
          simp only [hrec0] at h
          calc ch2.contentList
              = (ch.set k c2).contentList :=
                resetEntries_content rest rec (ch.set k c2) ch2 hrec h
            _ = ch.contentList :=
                NodeMap.contentList_set ch k c c2 hk (hrec _ _ hrec0)

theorem resetFuel_content :
    ∀ (f : Nat) (n n2 : Node), Node.resetFuel f n = .ok n2 → n2.content = n.content
  | 0, _, _ => by
    intro h
    simp [Node.resetFuel] at h
  | f+1, .mk v ch led, n2 => by
    intro h
    simp only [Node.resetFuel] at h
    cases hE : Node.resetEntries (fun nd => Node.resetFuel f nd) led ch with
    | error e => simp [hE] at h
    | ok ch2 =>
      simp only [hE, Except.ok.injEq] at h
      have hc : ch2.contentList = ch.contentList :=
        resetEntries_content led _ ch ch2 (fun nd nd2 hh => resetFuel_content f nd nd2 hh) hE
      rw [← h]
      simp [Node.content, hc]

theorem trigger_root_content (db db2 : TreeDatabase)
    (h : TreeDatabase.trigger db = .ok db2) : db2.root.content = db.root.content := by
  simp only [TreeDatabase.trigger, TreeStorage.triggerRecordChangeNotifications,
    Node.fireChildrenNotifications] at h
  cases hE : Node.fireFuel (db.root.depth + 1) [] db.root with
  | error e => simp [hE] at h
  | ok pr =>
    obtain ⟨evs, r⟩ := pr
    simp only [hE, Except.ok.injEq] at h
    rw [← h]
    exact fireFuel_content _ _ _ _ _ hE

theorem reset_root_content (db db2 : TreeDatabase)
    (h : TreeDatabase.reset db = .ok db2) : db2.root.content = db.root.content := by
  simp only [TreeDatabase.reset, TreeStorage.resetRecordedChanges,
    Node.resetChangedNodes] at h
  cases hE : Node.resetFuel (db.root.depth + 1) db.root with
  | error e => simp [hE] at h
  | ok r =>
    simp only [hE, Except.ok.injEq] at h
    rw [← h]
    exact resetFuel_content _ _ _ hE

theorem applyModification_spec (db : TreeDatabase) (change : AttributedModification) :
    TreeDatabase.applyModification db change =
      (match applyModStorage change.modification db.root with
       | .error e => .error e
       | .ok r =>
         if echoSuppressed change db.root r then TreeDatabase.reset { db with root := r }
         else TreeDatabase.trigger { db with root := r }) := by
  obtain ⟨m, src⟩ := change
  cases m with
  | SetValue p v =>
    cases src <;>
      (simp only [TreeDatabase.applyModification, applyModStorage, echoSuppressed]
       cases TreeStorage.setValue p v db.root <;> simp)
  | SetValues p vals =>
    cases src with
    | Remote =>
      simp only [TreeDatabase.applyModification, applyModStorage, echoSuppressed]
      cases TreeStorage.setValues p vals db.root <;> simp
    | Local =>
      cases hn : TreeStorage.getNode p db.root <;>
        simp only [TreeDatabase.applyModification, applyModStorage, echoSuppressed,
          beq_self_eq_true, eq_self_iff_true, if_true, Bool.true_and, hn]
  | Update p vals =>
    cases src <;>
      (simp only [TreeDatabase.applyModification, applyModStorage, echoSuppressed]
       cases TreeStorage.updateValues p vals db.root <;> simp)
  | Remove p =>
    cases src <;>
      (simp only [TreeDatabase.applyModification, applyModStorage, echoSuppressed]
       cases TreeStorage.removeValue p db.root <;> simp)

/-- C3: applyModification applies the modification to storage identically
regardless of Local/Remote source, with exactly one exception: for a Local
SetValues it clones the pre-existing node at the target path, compares it
for structural equality with the node after applying, and on equality
discards the ledgers via resetRecordedChanges instead of flushing; in every
other case it fires triggerRecordChangeNotifications.  Conjunct one is the
exact dispatch equation (the shared storage switch `applyModStorage`
followed by reset precisely under `echoSuppressed`, flush otherwise);
conjunct two derives that the resulting storage content (values and
children) is independent of the source. -/
theorem spec2proof_c3 (db : TreeDatabase) (change : AttributedModification) :
    (TreeDatabase.applyModification db change =
      (match applyModStorage change.modification db.root with
       | .error e => .error e
       | .ok r =>
         if echoSuppressed change db.root r then TreeDatabase.reset { db with root := r }
         else TreeDatabase.trigger { db with root := r })) ∧
    (∀ (change2 : AttributedModification) (db1 db2 : TreeDatabase),
      change2.modification = change.modification →
      TreeDatabase.applyModification db change = .ok db1 →
      TreeDatabase.applyModification db change2 = .ok db2 →
      db1.root.content = db2.root.content) := by
  refine ⟨applyModification_spec db change, ?_⟩
  intro change2 db1 db2 hm h1 h2
  rw [applyModification_spec] at h1 h2
  rw [hm] at h2
  cases hs : applyModStorage change.modification db.root with
  | error e =>
    rw [hs] at h1
    exact absurd h1 (by simp)
  | ok r =>
    rw [hs] at h1 h2
    have key : ∀ (dbx : TreeDatabase) (c : AttributedModification),
        (if echoSuppressed c db.root r then TreeDatabase.reset { db with root := r }
         else TreeDatabase.trigger { db with root := r }) = .ok dbx →
        dbx.root.content = r.content := by
      intro dbx c h
      by_cases hc : echoSuppressed c db.root r
      · rw [if_pos hc] at h
        exact reset_root_content _ _ h
      · rw [if_neg hc] at h
        exact trigger_root_content _ _ h
    exact (key db1 change h1).trans (key db2 change2 h2).symm

/-- Witness for spec2proof_c3: a SetValue applied with Source Local and with
Source Remote from the same state yields the same storage content. -/
theorem spec2proof_c3_witness :
    TreeDatabase.applyModification ⟨false, Node.empty, [], [], 0⟩
        ⟨.SetValue "w" (Prim.i 1), .Local⟩ =
      .ok ⟨false, .mk none (.cons "w" (.mk (some (Prim.i 1)) .nil []) .nil) [], [],
        [[⟨[], .ChildAdded, "w", .mk (some (Prim.i 1)) .nil []⟩,
          ⟨["w"], .ValueChanged, "w", .mk (some (Prim.i 1)) .nil []⟩,
          ⟨[], .ValueChanged, "",
            .mk none (.cons "w" (.mk (some (Prim.i 1)) .nil []) .nil) [("w", .Added)]⟩]],
        0⟩ ∧
    TreeDatabase.applyModification ⟨false, Node.empty, [], [], 0⟩
        ⟨.SetValue "w" (Prim.i 1), .Remote⟩ =
      .ok ⟨false, .mk none (.cons "w" (.mk (some (Prim.i 1)) .nil []) .nil) [], [],
        [[⟨[], .ChildAdded, "w", .mk (some (Prim.i 1)) .nil []⟩,
          ⟨["w"], .ValueChanged, "w", .mk (some (Prim.i 1)) .nil []⟩,
          ⟨[], .ValueChanged, "",
            .mk none (.cons "w" (.mk (some (Prim.i 1)) .nil []) .nil) [("w", .Added)]⟩]],
        0⟩ ∧
    (Node.mk none (.cons "w" (.mk (some (Prim.i 1)) .nil []) .nil) []).content =
      (Node.mk none (.cons "w" (.mk (some (Prim.i 1)) .nil []) .nil) []).content :=
  ⟨rfl, rfl,
   (spec2proof_c3 ⟨false, Node.empty, [], [], 0⟩ ⟨.SetValue "w" (Prim.i 1), .Local⟩).2
     ⟨.SetValue "w" (Prim.i 1), .Remote⟩
     ⟨false, .mk none (.cons "w" (.mk (some (Prim.i 1)) .nil []) .nil) [], [],
       [[⟨[], .ChildAdded, "w", .mk (some (Prim.i 1)) .nil []⟩,
         ⟨["w"], .ValueChanged, "w", .mk (some (Prim.i 1)) .nil []⟩,
         ⟨[], .ValueChanged, "",
           .mk none (.cons "w" (.mk (some (Prim.i 1)) .nil []) .nil) [("w", .Added)]⟩]],
       0⟩
     ⟨false, .mk none (.cons "w" (.mk (some (Prim.i 1)) .nil []) .nil) [], [],
       [[⟨[], .ChildAdded, "w", .mk (some (Prim.i 1)) .nil []⟩,
         ⟨["w"], .ValueChanged, "w", .mk (some (Prim.i 1)) .nil []⟩,
         ⟨[], .ValueChanged, "",
           .mk none (.cons "w" (.mk (some (Prim.i 1)) .nil []) .nil) [("w", .Added)]⟩]],
       0⟩
     rfl rfl rfl⟩

/-- C10: applyModification, reached through the database's modificationSink,
never consults the readonly flag: for every modification (Local or Remote)
and every database state, feeding the sink of a readonly database produces
exactly the same storage root, published stream, flush trace and reset count
as feeding the sink of a writable database with the same contents.  Only the
TreeDatabaseRef write methods enforce the read-only policy. -/
theorem spec2proof_c10 (change : AttributedModification) (root : Node)
    (pub : List Modification) (ft : List (List Event)) (rs : Nat) :
    (TreeDatabase.modificationSinkNext ⟨true, root, pub, ft, rs⟩ change).map
        (fun d => (d.root, d.published, d.flushTrace, d.resets)) =
      (TreeDatabase.modificationSinkNext ⟨false, root, pub, ft, rs⟩ change).map
        (fun d => (d.root, d.published, d.flushTrace, d.resets)) := by
  have htr : ∀ (b1 b2 : Bool) (r : Node),
      (TreeDatabase.trigger ⟨b1, r, pub, ft, rs⟩).map
          (fun d => (d.root, d.published, d.flushTrace, d.resets)) =
        (TreeDatabase.trigger ⟨b2, r, pub, ft, rs⟩).map
          (fun d => (d.root, d.published, d.flushTrace, d.resets)) := by
    intro b1 b2 r
    simp only [TreeDatabase.trigger]
    cases TreeStorage.triggerRecordChangeNotifications r <;> simp [Except.map]
  have hrs : ∀ (b1 b2 : Bool) (r : Node),
      (TreeDatabase.reset ⟨b1, r, pub, ft, rs⟩).map
          (fun d => (d.root, d.published, d.flushTrace, d.resets)) =
        (TreeDatabase.reset ⟨b2, r, pub, ft, rs⟩).map
          (fun d => (d.root, d.published, d.flushTrace, d.resets)) := by
    intro b1 b2 r
    simp only [TreeDatabase.reset]
    cases TreeStorage.resetRecordedChanges r <;> simp [Except.map]
  obtain ⟨m, src⟩ := change
  cases m with
  | SetValue p v =>
    simp only [TreeDatabase.modificationSinkNext, TreeDatabase.applyModification]
    cases TreeStorage.setValue p v root with
    | error e => rfl
    | ok r => exact htr true false r
  | SetValues p vals =>
    simp only [TreeDatabase.modificationSinkNext, TreeDatabase.applyModification]
    cases TreeStorage.setValues p vals root with
    | error e => rfl
    | ok r =>
      dsimp only
      split_ifs <;>
        first
          | exact hrs true false r
          | exact htr true false r
  | Update p vals =>
    simp only [TreeDatabase.modificationSinkNext, TreeDatabase.applyModification]
    cases TreeStorage.updateValues p vals root with
    | error e => rfl
    | ok r => exact htr true false r
  | Remove p =>
    simp only [TreeDatabase.modificationSinkNext, TreeDatabase.applyModification]
    cases TreeStorage.removeValue p root with
    | error e => rfl
    | ok r => exact htr true false r

mutual
theorem clone_content : ∀ (n : Node), n.clone.content = n.content
  | .mk v ch led => by
    simp only [Node.clone, Node.content, cloneAll_contentList ch]

theorem cloneAll_contentList : ∀ (m : NodeMap), m.cloneAll.contentList = m.contentList
  | .nil => rfl
  | .cons k c rest => by
    simp only [NodeMap.cloneAll, NodeMap.contentList, clone_content c,
      cloneAll_contentList rest]
end

mutual
theorem clone_ledgerFree : ∀ (n : Node), n.clone.ledgerFree = true
  | .mk v ch led => by
    simp only [Node.clone, Node.ledgerFree, cloneAll_allLedgerFree ch,
      List.isEmpty_nil, Bool.true_and]

theorem cloneAll_allLedgerFree : ∀ (m : NodeMap), m.cloneAll.allLedgerFree = true
  | .nil => rfl
  | .cons k c rest => by
    simp only [NodeMap.cloneAll, NodeMap.allLedgerFree, clone_ledgerFree c,
      cloneAll_allLedgerFree rest, Bool.and_self]
end

mutual
theorem clone_toJSON : ∀ (n : Node), n.clone.toJSON = n.toJSON
  | .mk (some p) ch led => by
    simp only [Node.clone, Node.toJSON]
  | .mk none ch led => by
    simp only [Node.clone, Node.toJSON, cloneAll_toJSONList ch]

theorem cloneAll_toJSONList : ∀ (m : NodeMap), m.cloneAll.toJSONList = m.toJSONList
  | .nil => rfl
  | .cons k c rest => by
    simp only [NodeMap.cloneAll, NodeMap.toJSONList, clone_toJSON c,
      cloneAll_toJSONList rest]
end

theorem cloneAll_get : ∀ (m : NodeMap) (k : String),
    m.cloneAll.get k = (m.get k).map Node.clone
  | .nil, _ => rfl
  | .cons key c rest, k => by
    by_cases h : key == k <;>
      simp [NodeMap.cloneAll, NodeMap.get, h, cloneAll_get rest k]

theorem clone_getChild : ∀ (ps : List String) (n : Node),
    (n.clone).getChild ps = (n.getChild ps).map Node.clone
  | [], n => by simp [Node.getChild]
  | k :: rest, .mk v ch led => by
    by_cases hk : k == ""
    · simp [Node.getChild, hk, Node.clone]
    · simp only [Node.getChild, hk, Bool.false_eq_true, if_false, Node.clone,
        Node.children, cloneAll_get ch k]
      cases ch.get k with
      | none => rfl
      | some c => simp [clone_getChild rest c]

/-- C8: a TreeDataSnapshot taken via TreeDataSnapshot.take is a deep,
decoupled copy.  General part: the snapshot holds `node.clone`, whose
content (value and children, recursively) equals the source's at take time,
with every ledger (and publisher) reset, and whose value / toJSON /
hasChild projections agree with the source's.  Concrete part: a snapshot of
the node at "a" keeps projecting the original content after the live tree
is mutated (`setValue "a/b" 2`) and after the source subtree is removed
(`removeValue "a"`) — the mutated live tree projects the new content while
the snapshot still projects the old one.  Mutation in this embedding builds
a new root value and never reaches into a previously taken snapshot. -/
theorem spec2proof_c8 :
    (∀ (n : Node) (pathKeys : List String),
      (TreeDataSnapshot.take n pathKeys).node = n.clone ∧
      (TreeDataSnapshot.take n pathKeys).node.content = n.content ∧
      (TreeDataSnapshot.take n pathKeys).node.ledgerFree = true ∧
      (TreeDataSnapshot.take n pathKeys).toJSON = n.toJSON ∧
      (TreeDataSnapshot.take n pathKeys).value = n.value ∧
      ∀ (p : String),
        (TreeDataSnapshot.take n pathKeys).hasChild p =
          (n.getChild (TreeStorage.split p)).isSome) ∧
    ((TreeStorage.setValues "a" [("b", Prim.i 1)] Node.empty).bind
        (fun r1 => (r1.fireChildrenNotifications).map Prod.snd) =
      .ok (.mk none (.cons "a" (.mk none (.cons "b" (.mk (some (Prim.i 1)) .nil [])
        .nil) []) .nil) [])) ∧
    (TreeStorage.getNode "a"
        (.mk none (.cons "a" (.mk none (.cons "b" (.mk (some (Prim.i 1)) .nil [])
          .nil) []) .nil) []) =
      some (.mk none (.cons "b" (.mk (some (Prim.i 1)) .nil []) .nil) [])) ∧
    ((TreeStorage.setValue "a/b" (Prim.i 2)
        (.mk none (.cons "a" (.mk none (.cons "b" (.mk (some (Prim.i 1)) .nil [])
          .nil) []) .nil) [])).map
      (fun r3 => (TreeStorage.getNode "a" r3).map Node.toJSON) =
      .ok (some (.obj [("b", .prim (Prim.i 2))]))) ∧
    ((TreeStorage.removeValue "a"
        (.mk none (.cons "a" (.mk none (.cons "b" (.mk (some (Prim.i 1)) .nil [])
          .nil) []) .nil) [])).map
      (fun r4 => TreeStorage.getNode "a" r4) = .ok none) ∧
    ((TreeDataSnapshot.take
        (.mk none (.cons "b" (.mk (some (Prim.i 1)) .nil []) .nil) []) ["a"]).toJSON =
      .obj [("b", .prim (Prim.i 1))]) := by
  refine ⟨?_, rfl, rfl, rfl, rfl, rfl⟩
  intro n pathKeys
  refine ⟨rfl, clone_content n, clone_ledgerFree n, clone_toJSON n, ?_, ?_⟩
  · cases n with
    | mk v ch led => rfl
  · intro p
    simp [TreeDataSnapshot.hasChild, TreeDataSnapshot.take, clone_getChild]
